import Mathlib

/-!
Shallow embedding of the SPI driver (`src/spi.rs`) of the stm32g0xx-hal
repository, together with theorems checking the natural-language
specification against it.

The hardware is modelled as an oracle (`Periph`): the value the status
register shows on the n-th status read, and the byte the data register
yields on the n-th data read.  The driver-visible state (`BusState`)
tracks how many status and data reads have happened and a log of the
externally observable events (data-register writes and reads, chip-select
edges, delay calls).  The functions `send_byte`, `receive_byte`, `block`,
`read`, `write`, `transfer`, `transfer_in_place` and `transaction` are
translated directly from the source; `block` carries explicit fuel since
the source's busy-wait loop is unbounded (fuel exhaustion, `none`, models
an infinite stall).
-/

deriving instance DecidableEq for Except

namespace Spi

/-- SPI error (`enum Error` in the source). -/
inductive Error where
  | Overrun
  | ModeFault
  | Crc
  | ChipSelectFault
  deriving DecidableEq

/-- Coarse error taxonomy (`embedded_hal::spi::ErrorKind`, the variants
used by this driver). -/
inductive ErrorKind where
  | Overrun
  | ModeFault
  | ChipSelectFault
  | Other
  deriving DecidableEq

/-- Translation of `impl hal::spi::Error for Error { fn kind(&self) }`. -/
def Error.kind : Error → ErrorKind
  | .Overrun => .Overrun
  | .ModeFault => .ModeFault
  | .ChipSelectFault => .ChipSelectFault
  | .Crc => .Other

/-- Clock polarity (`embedded_hal::spi::Polarity`). -/
inductive Polarity where
  | IdleLow
  | IdleHigh
  deriving DecidableEq

/-- Clock phase (`embedded_hal::spi::Phase`). -/
inductive Phase where
  | CaptureOnFirstTransition
  | CaptureOnSecondTransition
  deriving DecidableEq

/-- SPI mode (`embedded_hal::spi::Mode`). -/
structure Mode where
  polarity : Polarity
  phase : Phase
  deriving DecidableEq

/-- Divisor lookup of `SpiBus::new`: `match rcc.clocks.apb_clk / speed`
over the ranges `0  => unreachable!(), 1..=2 => 0b000, ...`.  The
`unreachable!()` arm (a panic) is modelled as `none`. -/
def br (r : Nat) : Option Nat :=
  if r = 0 then none
  else if r ≤ 2 then some 0b000
  else if r ≤ 5 then some 0b001
  else if r ≤ 11 then some 0b010
  else if r ≤ 23 then some 0b011
  else if r ≤ 47 then some 0b100
  else if r ≤ 95 then some 0b101
  else if r ≤ 191 then some 0b110
  else some 0b111

/-- The CR1 fields written by `SpiBus::new`. -/
structure CR1 where
  cpha : Bool
  cpol : Bool
  mstr : Bool
  brBits : Nat
  lsbfirst : Bool
  ssm : Bool
  ssi : Bool
  rxonly : Bool
  crcl : Bool
  bidimode : Bool
  spe : Bool
  deriving DecidableEq

/-- The CR2 fields written by `SpiBus::new` and `SpiBus::data_size`. -/
structure CR2 where
  ssoe : Bool
  frxth : Bool
  ds : Nat
  deriving DecidableEq

/-- The `spi.cr1().write(..)` call of `SpiBus::new`, field by field. -/
def cr1Config (mode : Mode) (brv : Nat) : CR1 :=
  { cpha := decide (mode.phase = Phase.CaptureOnSecondTransition)
  , cpol := decide (mode.polarity = Polarity.IdleHigh)
  , mstr := true
  , brBits := brv
  , lsbfirst := false
  , ssm := true
  , ssi := true
  , rxonly := false
  , crcl := false
  , bidimode := false
  , spe := true }

/-- Register contents produced by `SpiBus::new` given the mode, the APB
clock and the requested speed: the divisor comes from `br` on the integer
ratio, CR1 from `cr1Config`, and the final CR2 write sets `frxth`, an
8-bit `ds` (`0b111`) and clears `ssoe`.  A zero ratio panics in the
source, modelled as `none`. -/
def spiNew (mode : Mode) (apb_clk speed : Nat) : Option (CR1 × CR2) :=
  match br (apb_clk / speed) with
  | none => none
  | some brv => some (cr1Config mode brv, { ssoe := false, frxth := true, ds := 0b111 })

/-- Translation of `SpiBus::data_size`: `cr2.modify(|_, w| w.ds().bits(nr_bits - 1))`.
The subtraction is on `u8`, so it wraps modulo 256. -/
def data_size (c : CR2) (nr_bits : Nat) : CR2 :=
  { c with ds := (nr_bits + 255) % 256 }

/-- The status-register flags consulted by `send_byte` / `receive_byte`. -/
structure SR where
  ovr : Bool
  modf : Bool
  crcerr : Bool
  txe : Bool
  rxne : Bool
  deriving DecidableEq

/-- Oracle for the hardware: `sr n` is the value of the status register on
the n-th status read, `dr n` the raw value of the data register on the
n-th data read. -/
structure Periph where
  sr : Nat → SR
  dr : Nat → Nat

/-- Externally observable events of a run, in order: data-register writes
(`sentByte`), data-register reads (`recvByte`), chip-select edges, and
delay-provider invocations. -/
inductive Ev where
  | sentByte (b : Nat)
  | recvByte (b : Nat)
  | csLow
  | csHigh
  | delay (ns : Nat)
  deriving DecidableEq

/-- Driver-visible state: how many status and data reads have been
consumed from the oracle, plus the event log. -/
structure BusState where
  srIdx : Nat
  drIdx : Nat
  log : List Ev
  deriving DecidableEq

/-- Outcome of a single `nb`-style poll: `Ok`, `Err(WouldBlock)`, or
`Err(Other e)`. -/
inductive NbResult (α : Type) where
  | ok (a : α)
  | wouldBlock
  | err (e : Error)
  deriving DecidableEq

/-- Translation of `SpiBus::receive_byte`: one status read, fault flags
checked in order `ovr`, `modf`, `crcerr`, then `rxne`; on `rxne` a single
byte is read from the data register. -/
def receive_byte (p : Periph) (s : BusState) : BusState × NbResult Nat :=
  let sr := p.sr s.srIdx
  let s1 : BusState := { s with srIdx := s.srIdx + 1 }
  if sr.ovr then (s1, .err .Overrun)
  else if sr.modf then (s1, .err .ModeFault)
  else if sr.crcerr then (s1, .err .Crc)
  else if sr.rxne then
    let b := p.dr s1.drIdx % 256
    ({ s1 with drIdx := s1.drIdx + 1, log := s1.log ++ [.recvByte b] }, .ok b)
  else (s1, .wouldBlock)

/-- Translation of `SpiBus::send_byte`: one status read, fault flags
checked in order `ovr`, `modf`, `crcerr`, then `txe`; on `txe` the byte is
written to the data register. -/
def send_byte (p : Periph) (s : BusState) (byte : Nat) : BusState × NbResult Unit :=
  let sr := p.sr s.srIdx
  let s1 : BusState := { s with srIdx := s.srIdx + 1 }
  if sr.ovr then (s1, .err .Overrun)
  else if sr.modf then (s1, .err .ModeFault)
  else if sr.crcerr then (s1, .err .Crc)
  else if sr.txe then ({ s1 with log := s1.log ++ [.sentByte byte] }, .ok ())
  else (s1, .wouldBlock)

/-- The `nb::block!` busy-wait loop, with explicit fuel: `none` models the
source's unbounded stall when the peripheral never leaves `WouldBlock`. -/
def block (f : BusState → BusState × NbResult α) : Nat → BusState → Option (BusState × Except Error α)
  | 0, _ => none
  | fuel + 1, s =>
    match f s with
    | (s1, .ok a) => some (s1, .ok a)
    | (s1, .err e) => some (s1, .error e)
    | (s1, .wouldBlock) => block f fuel s1

/-- Sequencing of a blocking step followed by the rest of a primitive:
a stall (`none`) and an error short-circuit, mirroring `block!(..)?`. -/
def andThen (x : Option (BusState × Except Error α))
    (g : BusState → α → Option (BusState × Except Error β)) :
    Option (BusState × Except Error β) :=
  match x with
  | none => none
  | some (s, .error e) => some (s, .error e)
  | some (s, .ok a) => g s a

/-- Translation of `SpiBus::read` (`spi::SpiBus` impl): for each of the
`n` buffer positions, send the filler byte 0, then store the received
byte.  The returned list is the final contents of the buffer. -/
def read (p : Periph) (fuel : Nat) : BusState → Nat → Option (BusState × Except Error (List Nat))
  | s, 0 => some (s, .ok [])
  | s, n + 1 =>
    andThen (block (fun s => send_byte p s 0) fuel s) fun s _ =>
    andThen (block (receive_byte p) fuel s) fun s b =>
    andThen (read p fuel s n) fun s rest =>
    some (s, .ok (b :: rest))

/-- Translation of `SpiBus::write`: for each byte, send it, then receive
and discard. -/
def write (p : Periph) (fuel : Nat) : BusState → List Nat → Option (BusState × Except Error Unit)
  | s, [] => some (s, .ok ())
  | s, b :: bs =>
    andThen (block (fun s => send_byte p s b) fuel s) fun s _ =>
    andThen (block (receive_byte p) fuel s) fun s _ =>
    write p fuel s bs

/-- Translation of `SpiBus::transfer` on (read-buffer length, write
bytes), following the source's `match (iter_r.next(), iter_w.next())`:
both present → send the write byte and store the received one; read side
exhausted → send the write byte and discard; write side exhausted → send
0 and store.  Returns the final read-buffer contents. -/
def transfer (p : Periph) (fuel : Nat) :
    BusState → Nat → List Nat → Option (BusState × Except Error (List Nat))
  | s, 0, [] => some (s, .ok [])
  | s, 0, w :: ws =>
    andThen (block (fun s => send_byte p s w) fuel s) fun s _ =>
    andThen (block (receive_byte p) fuel s) fun s _ =>
    transfer p fuel s 0 ws
  | s, r + 1, [] =>
    andThen (block (fun s => send_byte p s 0) fuel s) fun s _ =>
    andThen (block (receive_byte p) fuel s) fun s b =>
    andThen (transfer p fuel s r []) fun s rest =>
    some (s, .ok (b :: rest))
  | s, r + 1, w :: ws =>
    andThen (block (fun s => send_byte p s w) fuel s) fun s _ =>
    andThen (block (receive_byte p) fuel s) fun s b =>
    andThen (transfer p fuel s r ws) fun s rest =>
    some (s, .ok (b :: rest))

/-- Translation of `SpiBus::transfer_in_place`: each byte is sent, then
overwritten by the received byte.  Returns the final buffer contents. -/
def transfer_in_place (p : Periph) (fuel : Nat) :
    BusState → List Nat → Option (BusState × Except Error (List Nat))
  | s, [] => some (s, .ok [])
  | s, b :: bs =>
    andThen (block (fun s => send_byte p s b) fuel s) fun s _ =>
    andThen (block (receive_byte p) fuel s) fun s r =>
    andThen (transfer_in_place p fuel s bs) fun s rest =>
    some (s, .ok (r :: rest))

/-- Translation of `SpiBus::flush`: a no-op. -/
def flush (s : BusState) : Option (BusState × Except Error Unit) :=
  some (s, .ok ())

/-- A transaction element (`embedded_hal::spi::Operation`).  Buffers that
are only written to are represented by their length. -/
inductive Operation where
  | Read (n : Nat)
  | Write (bs : List Nat)
  | Transfer (n : Nat) (ws : List Nat)
  | TransferInPlace (bs : List Nat)
  | DelayNs (ns : Nat)
  deriving DecidableEq

/-- The chip-select output pin: whether `set_low` / `set_high` succeed. -/
structure CsPin where
  set_low_ok : Bool
  set_high_ok : Bool
  deriving DecidableEq

/-- Discard the value of a bus primitive, keeping state and error: the
transaction loop uses each primitive only for its effect (`?`). -/
def asUnit (x : Option (BusState × Except Error α)) :
    Option (BusState × Except Error Unit) :=
  match x with
  | none => none
  | some (s, .error e) => some (s, .error e)
  | some (s, .ok _) => some (s, .ok ())

/-- One arm of the `match op` in `SpiDevice::transaction`: dispatch an
operation to the corresponding bus primitive (`DelayNs` goes to the delay
provider, logged as a `delay` event). -/
def dispatchOp (p : Periph) (fuel : Nat) (s : BusState) : Operation → Option (BusState × Except Error Unit)
  | .Read n => asUnit (read p fuel s n)
  | .Write bs => write p fuel s bs
  | .Transfer n ws => asUnit (transfer p fuel s n ws)
  | .TransferInPlace bs => asUnit (transfer_in_place p fuel s bs)
  | .DelayNs ns => some ({ s with log := s.log ++ [.delay ns] }, .ok ())

/-- The `for op in operations` loop of `SpiDevice::transaction`: each
failure aborts the rest of the list. -/
def runOps (p : Periph) (fuel : Nat) : BusState → List Operation → Option (BusState × Except Error Unit)
  | s, [] => some (s, .ok ())
  | s, op :: ops =>
    match dispatchOp p fuel s op with
    | none => none
    | some (s1, .error e) => some (s1, .error e)
    | some (s1, .ok _) => runOps p fuel s1 ops

/-- Translation of `SpiDevice::transaction`: `cs.set_low()` (mapped to
`ChipSelectFault` on failure), the operation loop, then `cs.set_high()`
(same mapping), then `Ok(())`. -/
def transaction (p : Periph) (cs : CsPin) (fuel : Nat) (s : BusState) (ops : List Operation) :
    Option (BusState × Except Error Unit) :=
  if cs.set_low_ok then
    match runOps p fuel { s with log := s.log ++ [.csLow] } ops with
    | none => none
    | some (s1, .error e) => some (s1, .error e)
    | some (s1, .ok _) =>
      if cs.set_high_ok then some ({ s1 with log := s1.log ++ [.csHigh] }, .ok ())
      else some (s1, .error .ChipSelectFault)
  else some (s, .error .ChipSelectFault)

/-! ### Derived notions used to state the properties -/

/-- Events a bus primitive may produce (everything except chip-select
edges). -/
def busEv : Ev → Bool
  | .csLow => false
  | .csHigh => false
  | _ => true

/-- The bytes written to the data register, in order, of an event list. -/
def sentOf : List Ev → List Nat
  | [] => []
  | .sentByte b :: rest => b :: sentOf rest
  | _ :: rest => sentOf rest

/-- The expected event trace of a run that sends the given bytes one by
one, each send immediately followed by draining one received byte (the
oracle's data stream starting at index `d`). -/
def wEvents (p : Periph) (d : Nat) : List Nat → List Ev
  | [] => []
  | b :: bs => .sentByte b :: .recvByte (p.dr d % 256) :: wEvents p (d + 1) bs

/-- The first `n` bytes of the oracle's data stream starting at index `d`
(as truncated to 8 bits by the driver's read). -/
def recvList (p : Periph) : Nat → Nat → List Nat
  | _, 0 => []
  | d, n + 1 => p.dr d % 256 :: recvList p (d + 1) n

/-- A trace is a strict alternation of send-then-receive pairs: no
pipelining. -/
def sendRecvAlt : List Ev → Bool
  | [] => true
  | .sentByte _ :: .recvByte _ :: rest => sendRecvAlt rest
  | _ => false

/-- Status word of a peripheral that is always ready and never faults. -/
def readySR : SR := ⟨false, false, false, true, true⟩

/-- A peripheral that reports readiness without faults on every poll. -/
def Ready (p : Periph) : Prop := ∀ n, p.sr n = readySR

/-- State `s'` extends `s` by appending bus events only (no chip-select
edges). -/
def LogExt (s s' : BusState) : Prop :=
  ∃ t, s'.log = s.log ++ t ∧ ∀ ev ∈ t, busEv ev = true

theorem LogExt.refl (s : BusState) : LogExt s s :=
  ⟨[], by simp, by simp⟩

theorem LogExt.trans {s1 s2 s3 : BusState} (h1 : LogExt s1 s2) (h2 : LogExt s2 s3) :
    LogExt s1 s3 := by
  obtain ⟨t1, e1, b1⟩ := h1
  obtain ⟨t2, e2, b2⟩ := h2
  refine ⟨t1 ++ t2, by simp [e2, e1], ?_⟩
  intro ev hev
  rcases List.mem_append.1 hev with h | h
  · exact b1 ev h
  · exact b2 ev h

theorem send_byte_ext (p : Periph) (s : BusState) (b : Nat) :
    LogExt s (send_byte p s b).1 := by
  simp only [send_byte]
  split_ifs
  · exact ⟨[], by simp, by simp⟩
  · exact ⟨[], by simp, by simp⟩
  · exact ⟨[], by simp, by simp⟩
  · exact ⟨[.sentByte b], by simp, by simp [busEv]⟩
  · exact ⟨[], by simp, by simp⟩

theorem receive_byte_ext (p : Periph) (s : BusState) :
    LogExt s (receive_byte p s).1 := by
  simp only [receive_byte]
  split_ifs
  · exact ⟨[], by simp, by simp⟩
  · exact ⟨[], by simp, by simp⟩
  · exact ⟨[], by simp, by simp⟩
  · exact ⟨[.recvByte (p.dr s.drIdx % 256)], by simp, by simp [busEv]⟩
  · exact ⟨[], by simp, by simp⟩

theorem block_ext {α : Type} {f : BusState → BusState × NbResult α}
    (hf : ∀ s, LogExt s (f s).1) :
    ∀ (fuel : Nat) (s s' : BusState) (r : Except Error α),
      block f fuel s = some (s', r) → LogExt s s' := by
  intro fuel
  induction fuel with
  | zero => intro s s' r h; simp [block] at h
  | succ n ih =>
    intro s s' r h
    simp only [block] at h
    rcases hfs : f s with ⟨s1, r1⟩
    have hs1 : LogExt s s1 := by have := hf s; rwa [hfs] at this
    rw [hfs] at h
    cases r1 with
    | ok a => simp only [Option.some.injEq, Prod.mk.injEq] at h; exact h.1 ▸ hs1
    | err e => simp only [Option.some.injEq, Prod.mk.injEq] at h; exact h.1 ▸ hs1
    | wouldBlock => exact hs1.trans (ih s1 s' r h)

theorem andThen_ext {α β : Type} {s : BusState} {x : Option (BusState × Except Error α)}
    {g : BusState → α → Option (BusState × Except Error β)}
    (hx : ∀ s1 r1, x = some (s1, r1) → LogExt s s1)
    (hg : ∀ s1 a s' r, x = some (s1, Except.ok a) → g s1 a = some (s', r) → LogExt s1 s') :
    ∀ s' r, andThen x g = some (s', r) → LogExt s s' := by
  intro s' r h
  cases x with
  | none => simp [andThen] at h
  | some v =>
    rcases v with ⟨s1, r1⟩
    cases r1 with
    | error e =>
      simp only [andThen, Option.some.injEq, Prod.mk.injEq] at h
      exact h.1 ▸ hx s1 _ rfl
    | ok a =>
      simp only [andThen] at h
      exact (hx s1 _ rfl).trans (hg s1 a s' r rfl h)

theorem read_ext (p : Periph) (fuel : Nat) :
    ∀ (n : Nat) (s s' : BusState) (r : Except Error (List Nat)),
      read p fuel s n = some (s', r) → LogExt s s' := by
  intro n
  induction n with
  | zero =>
    intro s s' r h
    simp only [read, Option.some.injEq, Prod.mk.injEq] at h
    exact h.1 ▸ LogExt.refl s
  | succ n ih =>
    intro s s' r h
    simp only [read] at h
    refine andThen_ext (fun s1 r1 hb => block_ext (send_byte_ext p · 0) fuel s s1 r1 hb)
      (fun s1 _ s' r _ h1 => ?_) s' r h
    refine andThen_ext (fun s2 r2 hb => block_ext (receive_byte_ext p) fuel s1 s2 r2 hb)
      (fun s2 b s' r _ h2 => ?_) s' r h1
    refine andThen_ext (fun s3 r3 hb => ih s2 s3 r3 hb) (fun s3 rest s' r _ h3 => ?_) s' r h2
    simp only [Option.some.injEq, Prod.mk.injEq] at h3
    exact h3.1 ▸ LogExt.refl s3

theorem write_ext (p : Periph) (fuel : Nat) :
    ∀ (bs : List Nat) (s s' : BusState) (r : Except Error Unit),
      write p fuel s bs = some (s', r) → LogExt s s' := by
  intro bs
  induction bs with
  | nil =>
    intro s s' r h
    simp only [write, Option.some.injEq, Prod.mk.injEq] at h
    exact h.1 ▸ LogExt.refl s
  | cons b bs ih =>
    intro s s' r h
    simp only [write] at h
    refine andThen_ext (fun s1 r1 hb => block_ext (send_byte_ext p · b) fuel s s1 r1 hb)
      (fun s1 _ s' r _ h1 => ?_) s' r h
    refine andThen_ext (fun s2 r2 hb => block_ext (receive_byte_ext p) fuel s1 s2 r2 hb)
      (fun s2 _ s' r _ h2 => ih s2 s' r h2) s' r h1

theorem transfer_ext (p : Periph) (fuel : Nat) :
    ∀ (n : Nat) (ws : List Nat) (s s' : BusState) (r : Except Error (List Nat)),
      transfer p fuel s n ws = some (s', r) → LogExt s s' := by
  intro n ws
  induction ws generalizing n with
  | nil =>
    induction n with
    | zero =>
      intro s s' r h
      simp only [transfer, Option.some.injEq, Prod.mk.injEq] at h
      exact h.1 ▸ LogExt.refl s
    | succ m ih =>
      intro s s' r h
      simp only [transfer] at h
      refine andThen_ext (fun s1 r1 hb => block_ext (send_byte_ext p · 0) fuel s s1 r1 hb)
        (fun s1 _ s' r _ h1 => ?_) s' r h
      refine andThen_ext (fun s2 r2 hb => block_ext (receive_byte_ext p) fuel s1 s2 r2 hb)
        (fun s2 b s' r _ h2 => ?_) s' r h1
      refine andThen_ext (fun s3 r3 hb => ih s2 s3 r3 hb) (fun s3 rest s' r _ h3 => ?_) s' r h2
      simp only [Option.some.injEq, Prod.mk.injEq] at h3
      exact h3.1 ▸ LogExt.refl s3
  | cons w ws ih =>
    intro s s' r h
    cases n with
    | zero =>
      simp only [transfer] at h
      refine andThen_ext (fun s1 r1 hb => block_ext (send_byte_ext p · w) fuel s s1 r1 hb)
        (fun s1 _ s' r _ h1 => ?_) s' r h
      refine andThen_ext (fun s2 r2 hb => block_ext (receive_byte_ext p) fuel s1 s2 r2 hb)
        (fun s2 _ s' r _ h2 => ih 0 s2 s' r h2) s' r h1
    | succ m =>
      simp only [transfer] at h
      refine andThen_ext (fun s1 r1 hb => block_ext (send_byte_ext p · w) fuel s s1 r1 hb)
        (fun s1 _ s' r _ h1 => ?_) s' r h
      refine andThen_ext (fun s2 r2 hb => block_ext (receive_byte_ext p) fuel s1 s2 r2 hb)
        (fun s2 b s' r _ h2 => ?_) s' r h1
      refine andThen_ext (fun s3 r3 hb => ih m s2 s3 r3 hb) (fun s3 rest s' r _ h3 => ?_) s' r h2
      simp only [Option.some.injEq, Prod.mk.injEq] at h3
      exact h3.1 ▸ LogExt.refl s3

theorem transfer_in_place_ext (p : Periph) (fuel : Nat) :
    ∀ (bs : List Nat) (s s' : BusState) (r : Except Error (List Nat)),
      transfer_in_place p fuel s bs = some (s', r) → LogExt s s' := by
  intro bs
  induction bs with
  | nil =>
    intro s s' r h
    simp only [transfer_in_place, Option.some.injEq, Prod.mk.injEq] at h
    exact h.1 ▸ LogExt.refl s
  | cons b bs ih =>
    intro s s' r h
    simp only [transfer_in_place] at h
    refine andThen_ext (fun s1 r1 hb => block_ext (send_byte_ext p · b) fuel s s1 r1 hb)
      (fun s1 _ s' r _ h1 => ?_) s' r h
    refine andThen_ext (fun s2 r2 hb => block_ext (receive_byte_ext p) fuel s1 s2 r2 hb)
      (fun s2 b2 s' r _ h2 => ?_) s' r h1
    refine andThen_ext (fun s3 r3 hb => ih s2 s3 r3 hb) (fun s3 rest s' r _ h3 => ?_) s' r h2
    simp only [Option.some.injEq, Prod.mk.injEq] at h3
    exact h3.1 ▸ LogExt.refl s3

theorem dispatchOp_ext (p : Periph) (fuel : Nat) (op : Operation) :
    ∀ (s s' : BusState) (r : Except Error Unit),
      dispatchOp p fuel s op = some (s', r) → LogExt s s' := by
  intro s s' r h
  cases op with
  | Read n =>
    simp only [dispatchOp, asUnit] at h
    rcases hx : read p fuel s n with _ | ⟨s1, r1⟩
    · rw [hx] at h; simp at h
    · rw [hx] at h
      cases r1 <;> simp only [Option.some.injEq, Prod.mk.injEq] at h <;>
        exact h.1 ▸ read_ext p fuel n s s1 _ hx
  | Write bs => exact write_ext p fuel bs s s' r h
  | Transfer n ws =>
    simp only [dispatchOp, asUnit] at h
    rcases hx : transfer p fuel s n ws with _ | ⟨s1, r1⟩
    · rw [hx] at h; simp at h
    · rw [hx] at h
      cases r1 <;> simp only [Option.some.injEq, Prod.mk.injEq] at h <;>
        exact h.1 ▸ transfer_ext p fuel n ws s s1 _ hx
  | TransferInPlace bs =>
    simp only [dispatchOp, asUnit] at h
    rcases hx : transfer_in_place p fuel s bs with _ | ⟨s1, r1⟩
    · rw [hx] at h; simp at h
    · rw [hx] at h
      cases r1 <;> simp only [Option.some.injEq, Prod.mk.injEq] at h <;>
        exact h.1 ▸ transfer_in_place_ext p fuel bs s s1 _ hx
  | DelayNs ns =>
    simp only [dispatchOp, Option.some.injEq, Prod.mk.injEq] at h
    exact h.1 ▸ ⟨[.delay ns], by simp, by simp [busEv]⟩

theorem runOps_ext (p : Periph) (fuel : Nat) :
    ∀ (ops : List Operation) (s s' : BusState) (r : Except Error Unit),
      runOps p fuel s ops = some (s', r) → LogExt s s' := by
  intro ops
  induction ops with
  | nil =>
    intro s s' r h
    simp only [runOps, Option.some.injEq, Prod.mk.injEq] at h
    exact h.1 ▸ LogExt.refl s
  | cons op ops ih =>
    intro s s' r h
    simp only [runOps] at h
    rcases hx : dispatchOp p fuel s op with _ | ⟨s1, r1⟩
    · rw [hx] at h; simp at h
    · rw [hx] at h
      have hs1 : LogExt s s1 := dispatchOp_ext p fuel op s s1 r1 hx
      cases r1 with
      | error e =>
        simp only [Option.some.injEq, Prod.mk.injEq] at h
        exact h.1 ▸ hs1
      | ok a => exact hs1.trans (ih s1 s' r h)

/-- Splitting the transaction loop at a list append. -/
theorem runOps_append (p : Periph) (fuel : Nat) :
    ∀ (xs ys : List Operation) (s : BusState),
      runOps p fuel s (xs ++ ys) =
        match runOps p fuel s xs with
        | none => none
        | some (s1, .error e) => some (s1, .error e)
        | some (s1, .ok _) => runOps p fuel s1 ys := by
  intro xs
  induction xs with
  | nil => intro ys s; simp [runOps]
  | cons op xs ih =>
    intro ys s
    simp only [List.cons_append, runOps]
    rcases hx : dispatchOp p fuel s op with _ | ⟨s1, r1⟩
    · rfl
    · cases r1 with
      | error e => rfl
      | ok a => exact ih ys s1

/-! ### Behaviour of the blocking per-byte steps on a ready peripheral -/

theorem block_send_ready {p : Periph} (hp : Ready p) {fuel : Nat} (hf : 0 < fuel)
    (s : BusState) (b : Nat) :
    block (fun s => send_byte p s b) fuel s =
      some ({ s with srIdx := s.srIdx + 1, log := s.log ++ [.sentByte b] }, .ok ()) := by
  cases fuel with
  | zero => omega
  | succ f => simp [block, send_byte, hp s.srIdx, readySR]

theorem block_recv_ready {p : Periph} (hp : Ready p) {fuel : Nat} (hf : 0 < fuel)
    (s : BusState) :
    block (receive_byte p) fuel s =
      some ({ s with srIdx := s.srIdx + 1, drIdx := s.drIdx + 1, log := s.log ++ [.recvByte (p.dr s.drIdx % 256)] },
            .ok (p.dr s.drIdx % 256)) := by
  cases fuel with
  | zero => omega
  | succ f => simp [block, receive_byte, hp s.srIdx, readySR]

theorem write_ready {p : Periph} (hp : Ready p) {fuel : Nat} (hf : 0 < fuel) :
    ∀ (bs : List Nat) (s : BusState),
      write p fuel s bs =
        some ({ s with srIdx := s.srIdx + 2 * bs.length, drIdx := s.drIdx + bs.length, log := s.log ++ wEvents p s.drIdx bs },
              .ok ()) := by
  intro bs
  induction bs with
  | nil => intro s; simp [write, wEvents]
  | cons b bs ih =>
    intro s
    simp only [write, block_send_ready hp hf, block_recv_ready hp hf, andThen, ih,
      Option.some.injEq, Prod.mk.injEq, BusState.mk.injEq, wEvents, List.length_cons]
    refine ⟨⟨by omega, by omega, ?_⟩, trivial⟩
    simp [List.append_assoc]

theorem read_ready {p : Periph} (hp : Ready p) {fuel : Nat} (hf : 0 < fuel) :
    ∀ (n : Nat) (s : BusState),
      read p fuel s n =
        some ({ s with srIdx := s.srIdx + 2 * n, drIdx := s.drIdx + n, log := s.log ++ wEvents p s.drIdx (List.replicate n 0) },
              .ok (recvList p s.drIdx n)) := by
  intro n
  induction n with
  | zero => intro s; simp [read, wEvents, recvList]
  | succ n ih =>
    intro s
    simp only [read, block_send_ready hp hf, block_recv_ready hp hf, andThen, ih,
      Option.some.injEq, Prod.mk.injEq, BusState.mk.injEq, List.replicate_succ, wEvents,
      recvList]
    refine ⟨⟨by omega, by omega, ?_⟩, trivial⟩
    simp [List.append_assoc]

theorem transfer_in_place_ready {p : Periph} (hp : Ready p) {fuel : Nat} (hf : 0 < fuel) :
    ∀ (bs : List Nat) (s : BusState),
      transfer_in_place p fuel s bs =
        some ({ s with srIdx := s.srIdx + 2 * bs.length, drIdx := s.drIdx + bs.length, log := s.log ++ wEvents p s.drIdx bs },
              .ok (recvList p s.drIdx bs.length)) := by
  intro bs
  induction bs with
  | nil => intro s; simp [transfer_in_place, wEvents, recvList]
  | cons b bs ih =>
    intro s
    simp only [transfer_in_place, block_send_ready hp hf, block_recv_ready hp hf, andThen,
      ih, Option.some.injEq, Prod.mk.injEq, BusState.mk.injEq, wEvents, List.length_cons,
      recvList]
    refine ⟨⟨by omega, by omega, ?_⟩, trivial⟩
    simp [List.append_assoc]

theorem transfer_ready {p : Periph} (hp : Ready p) {fuel : Nat} (hf : 0 < fuel) :
    ∀ (ws : List Nat) (n : Nat) (s : BusState),
      transfer p fuel s n ws =
        some ({ s with srIdx := s.srIdx + 2 * max n ws.length, drIdx := s.drIdx + max n ws.length, log := s.log ++ wEvents p s.drIdx (ws ++ List.replicate (n - ws.length) 0) },
              .ok (recvList p s.drIdx n)) := by
  intro ws
  induction ws with
  | nil =>
    intro n
    induction n with
    | zero => intro s; simp [transfer, wEvents, recvList]
    | succ m ih =>
      intro s
      simp only [transfer, block_send_ready hp hf, block_recv_ready hp hf, andThen, ih,
        Option.some.injEq, Prod.mk.injEq, BusState.mk.injEq, List.nil_append,
        List.replicate_succ, wEvents, recvList, List.length_nil]
      refine ⟨⟨by omega, by omega, ?_⟩, trivial⟩
      simp [List.append_assoc]
  | cons w ws ih =>
    intro n
    cases n with
    | zero =>
      intro s
      simp only [transfer, block_send_ready hp hf, block_recv_ready hp hf, andThen, ih,
        Option.some.injEq, Prod.mk.injEq, BusState.mk.injEq, wEvents, List.length_cons,
        recvList]
      refine ⟨⟨by omega, by omega, ?_⟩, trivial⟩
      simp [List.append_assoc]
    | succ m =>
      intro s
      simp only [transfer, block_send_ready hp hf, block_recv_ready hp hf, andThen, ih,
        Option.some.injEq, Prod.mk.injEq, BusState.mk.injEq, wEvents, List.length_cons,
        recvList]
      refine ⟨⟨by omega, by omega, ?_⟩, trivial⟩
      simp [List.append_assoc]

theorem sentOf_wEvents (p : Periph) : ∀ (d : Nat) (bs : List Nat),
    sentOf (wEvents p d bs) = bs := by
  intro d bs
  induction bs generalizing d with
  | nil => simp [wEvents, sentOf]
  | cons b bs ih => simp [wEvents, sentOf, ih]

theorem recvList_length (p : Periph) : ∀ (d n : Nat), (recvList p d n).length = n := by
  intro d n
  induction n generalizing d with
  | zero => simp [recvList]
  | succ n ih => simp [recvList, ih]

theorem sendRecvAlt_wEvents (p : Periph) : ∀ (d : Nat) (bs : List Nat),
    sendRecvAlt (wEvents p d bs) = true := by
  intro d bs
  induction bs generalizing d with
  | nil => simp [wEvents, sendRecvAlt]
  | cons b bs ih => simp [wEvents, sendRecvAlt, ih]

/-! ### Concrete models used by the witnesses -/

/-- A peripheral that is always ready: no fault flags, transmit and
receive ready on every poll; the data stream is 10, 11, 12, ... -/
def readyP : Periph := ⟨fun _ => readySR, fun n => 10 + n⟩

/-- A peripheral whose overrun flag is set on every poll. -/
def faultyP : Periph := ⟨fun _ => ⟨true, false, false, false, false⟩, fun _ => 0⟩

/-- The initial driver state. -/
def st0 : BusState := ⟨0, 0, []⟩

theorem readyP_ready : Ready readyP := fun _ => rfl

/-! ### The claims -/

/-- C3: the divisor code computed at Bus construction equals the fixed
band lookup, exactly at every band boundary, and a zero ratio is rejected
(the `unreachable!()` arm) rather than producing a code. -/
theorem claim_C3 (r : Nat) :
    br 0 = none ∧
    (1 ≤ r → r ≤ 2 → br r = some 0b000) ∧
    (3 ≤ r → r ≤ 5 → br r = some 0b001) ∧
    (6 ≤ r → r ≤ 11 → br r = some 0b010) ∧
    (12 ≤ r → r ≤ 23 → br r = some 0b011) ∧
    (24 ≤ r → r ≤ 47 → br r = some 0b100) ∧
    (48 ≤ r → r ≤ 95 → br r = some 0b101) ∧
    (96 ≤ r → r ≤ 191 → br r = some 0b110) ∧
    (192 ≤ r → br r = some 0b111) := by
  refine ⟨by simp [br], ?_, ?_, ?_, ?_, ?_, ?_, ?_, ?_⟩ <;>
    (intros; unfold br; split_ifs <;> first | rfl | omega)

/-- Witness for C3 at the band boundaries 8 (→ 0b010), 2, 3, 191 and 192. -/
theorem claim_C3_witness :
    br 0 = none ∧ br 8 = some 0b010 ∧ br 2 = some 0b000 ∧ br 3 = some 0b001 ∧
    br 191 = some 0b110 ∧ br 192 = some 0b111 :=
  ⟨(claim_C3 0).1,
   (claim_C3 8).2.2.2.1 (by decide) (by decide),
   (claim_C3 2).2.1 (by decide) (by decide),
   (claim_C3 3).2.2.1 (by decide) (by decide),
   (claim_C3 191).2.2.2.2.2.2.2.1 (by decide) (by decide),
   (claim_C3 192).2.2.2.2.2.2.2.2 (by decide)⟩

/-- C4: in every single poll step of the send and receive phases the
status flags are checked in order overrun, mode-fault, CRC-error, then
readiness: the first fault flag set aborts with the corresponding error
and touches nothing (only the status read advances), readiness performs
the data-register access, and no flag set yields would-block, not an
error. -/
theorem claim_C4 (p : Periph) (s : BusState) (byte : Nat) :
    ((p.sr s.srIdx).ovr = true →
      send_byte p s byte = ({ s with srIdx := s.srIdx + 1 }, .err .Overrun) ∧
      receive_byte p s = ({ s with srIdx := s.srIdx + 1 }, .err .Overrun)) ∧
    ((p.sr s.srIdx).ovr = false → (p.sr s.srIdx).modf = true →
      send_byte p s byte = ({ s with srIdx := s.srIdx + 1 }, .err .ModeFault) ∧
      receive_byte p s = ({ s with srIdx := s.srIdx + 1 }, .err .ModeFault)) ∧
    ((p.sr s.srIdx).ovr = false → (p.sr s.srIdx).modf = false →
        (p.sr s.srIdx).crcerr = true →
      send_byte p s byte = ({ s with srIdx := s.srIdx + 1 }, .err .Crc) ∧
      receive_byte p s = ({ s with srIdx := s.srIdx + 1 }, .err .Crc)) ∧
    ((p.sr s.srIdx).ovr = false → (p.sr s.srIdx).modf = false →
        (p.sr s.srIdx).crcerr = false → (p.sr s.srIdx).txe = true →
      send_byte p s byte =
        ({ s with srIdx := s.srIdx + 1, log := s.log ++ [.sentByte byte] }, .ok ())) ∧
    ((p.sr s.srIdx).ovr = false → (p.sr s.srIdx).modf = false →
        (p.sr s.srIdx).crcerr = false → (p.sr s.srIdx).rxne = true →
      receive_byte p s =
        ({ s with srIdx := s.srIdx + 1, drIdx := s.drIdx + 1, log := s.log ++ [.recvByte (p.dr s.drIdx % 256)] },
         .ok (p.dr s.drIdx % 256))) ∧
    ((p.sr s.srIdx).ovr = false → (p.sr s.srIdx).modf = false →
        (p.sr s.srIdx).crcerr = false → (p.sr s.srIdx).txe = false →
      send_byte p s byte = ({ s with srIdx := s.srIdx + 1 }, .wouldBlock)) ∧
    ((p.sr s.srIdx).ovr = false → (p.sr s.srIdx).modf = false →
        (p.sr s.srIdx).crcerr = false → (p.sr s.srIdx).rxne = false →
      receive_byte p s = ({ s with srIdx := s.srIdx + 1 }, .wouldBlock)) := by
  refine ⟨?_, ?_, ?_, ?_, ?_, ?_, ?_⟩ <;>
    (intros; simp_all [send_byte, receive_byte])

/-- Witness for C4: a stuck-overrun peripheral fails both phases with
`Overrun`, and the always-ready peripheral performs the data access. -/
theorem claim_C4_witness :
    send_byte faultyP st0 5 = (⟨1, 0, []⟩, .err .Overrun) ∧
    receive_byte faultyP st0 = (⟨1, 0, []⟩, .err .Overrun) ∧
    send_byte readyP st0 5 = (⟨1, 0, [.sentByte 5]⟩, .ok ()) ∧
    receive_byte readyP st0 = (⟨1, 1, [.recvByte 10]⟩, .ok 10) :=
  ⟨((claim_C4 faultyP st0 5).1 rfl).1,
   ((claim_C4 faultyP st0 5).1 rfl).2,
   (claim_C4 readyP st0 5).2.2.2.1 rfl rfl rfl rfl,
   (claim_C4 readyP st0 5).2.2.2.2.1 rfl rfl rfl rfl⟩

/-- C7: Bus construction programs CR1 exactly from its inputs: phase bit
iff capture-on-second-edge, polarity bit iff idle-high (idle-low and
capture-on-first-edge give both bits 0), master forced on, the computed
divisor code written, MSB-first, software slave management with the
internal slave-select asserted, full-duplex non-CRC non-bidirectional,
and the peripheral enabled. -/
theorem claim_C7 (mode : Mode) (brv : Nat) :
    ((cr1Config mode brv).cpha = true ↔ mode.phase = Phase.CaptureOnSecondTransition) ∧
    ((cr1Config mode brv).cpol = true ↔ mode.polarity = Polarity.IdleHigh) ∧
    (mode = ⟨.IdleLow, .CaptureOnFirstTransition⟩ →
      (cr1Config mode brv).cpha = false ∧ (cr1Config mode brv).cpol = false) ∧
    (cr1Config mode brv).mstr = true ∧
    (cr1Config mode brv).brBits = brv ∧
    (cr1Config mode brv).lsbfirst = false ∧
    (cr1Config mode brv).ssm = true ∧
    (cr1Config mode brv).ssi = true ∧
    (cr1Config mode brv).rxonly = false ∧
    (cr1Config mode brv).crcl = false ∧
    (cr1Config mode brv).bidimode = false ∧
    (cr1Config mode brv).spe = true ∧
    (∀ clk speed v, br (clk / speed) = some v →
      spiNew mode clk speed = some (cr1Config mode v, ⟨false, true, 0b111⟩)) := by
  refine ⟨by simp [cr1Config], by simp [cr1Config], ?_, rfl, rfl, rfl, rfl, rfl, rfl, rfl,
    rfl, rfl, ?_⟩
  · rintro rfl; exact ⟨by simp [cr1Config], by simp [cr1Config]⟩
  · intro clk speed v h; simp [spiNew, h]

/-- Witness for C7 at the spec scenario: 8 MHz clock, 1 MHz target, mode 0
(idle-low, capture-on-first-edge) gives both mode bits 0 and divisor code
0b010. -/
theorem claim_C7_witness :
    (cr1Config ⟨.IdleLow, .CaptureOnFirstTransition⟩ 2).cpha = false ∧
    (cr1Config ⟨.IdleLow, .CaptureOnFirstTransition⟩ 2).cpol = false ∧
    spiNew ⟨.IdleLow, .CaptureOnFirstTransition⟩ 8000000 1000000 =
      some (cr1Config ⟨.IdleLow, .CaptureOnFirstTransition⟩ 0b010, ⟨false, true, 0b111⟩) :=
  ⟨((claim_C7 ⟨.IdleLow, .CaptureOnFirstTransition⟩ 2).2.2.1 rfl).1,
   ((claim_C7 ⟨.IdleLow, .CaptureOnFirstTransition⟩ 2).2.2.1 rfl).2,
   (claim_C7 ⟨.IdleLow, .CaptureOnFirstTransition⟩ 2).2.2.2.2.2.2.2.2.2.2.2.2
     8000000 1000000 0b010 (by decide)⟩

/-- C8: the error classifier maps Overrun, ModeFault and ChipSelectFault
to the matching coarse kinds and Crc to the generic Other kind. -/
theorem claim_C8 :
    Error.kind .Overrun = ErrorKind.Overrun ∧
    Error.kind .ModeFault = ErrorKind.ModeFault ∧
    Error.kind .ChipSelectFault = ErrorKind.ChipSelectFault ∧
    Error.kind .Crc = ErrorKind.Other :=
  ⟨rfl, rfl, rfl, rfl⟩

/-- C9: `data_size` writes `nr_bits - 1` into the frame-size field and
leaves the other CR2 fields unchanged; at `nr_bits = 0` the `u8`
subtraction wraps to 255 instead of being rejected or clamped, so
`nr_bits ≥ 1` is an unstated precondition. -/
theorem claim_C9 (c : CR2) (nr_bits : Nat) :
    (1 ≤ nr_bits → nr_bits < 256 → (data_size c nr_bits).ds = nr_bits - 1) ∧
    (data_size c nr_bits).ssoe = c.ssoe ∧
    (data_size c nr_bits).frxth = c.frxth ∧
    (data_size c 0).ds = 255 := by
  refine ⟨fun h1 h2 => ?_, rfl, rfl, by simp [data_size]⟩
  simp only [data_size]
  omega

/-- Witness for C9: 8 data bits set the field to 7; 0 bits wrap to 255. -/
theorem claim_C9_witness :
    (data_size ⟨false, true, 7⟩ 8).ds = 7 ∧ (data_size ⟨false, true, 7⟩ 0).ds = 255 :=
  ⟨(claim_C9 ⟨false, true, 7⟩ 8).1 (by decide) (by decide),
   (claim_C9 ⟨false, true, 7⟩ 8).2.2.2⟩

/-- C5: on a responsive peripheral, `transfer` with read length `n` and
write bytes `ws` sends exactly `max n ws.length` bytes — the write bytes
in order, then 0x00 filler once the write side is exhausted — stores the
first `n` received bytes in the read buffer (discarding the rest), and
returns success once both sides are exhausted. -/
theorem claim_C5 {p : Periph} (hp : Ready p) {fuel : Nat} (hf : 0 < fuel)
    (s : BusState) (n : Nat) (ws : List Nat) :
    transfer p fuel s n ws =
      some ({ s with srIdx := s.srIdx + 2 * max n ws.length, drIdx := s.drIdx + max n ws.length, log := s.log ++ wEvents p s.drIdx (ws ++ List.replicate (n - ws.length) 0) },
            .ok (recvList p s.drIdx n)) ∧
    sentOf (wEvents p s.drIdx (ws ++ List.replicate (n - ws.length) 0)) =
      ws ++ List.replicate (n - ws.length) 0 ∧
    (sentOf (wEvents p s.drIdx (ws ++ List.replicate (n - ws.length) 0))).length =
      max n ws.length ∧
    (recvList p s.drIdx n).length = n := by
  refine ⟨transfer_ready hp hf ws n s, sentOf_wEvents p _ _, ?_, recvList_length p _ _⟩
  rw [sentOf_wEvents]
  simp only [List.length_append, List.length_replicate]
  omega

/-- Witness for C5 with read length 3 and a single write byte: 3 sends
(one write byte, two fillers), 3 stored bytes. -/
theorem claim_C5_witness :
    transfer readyP 1 st0 3 [7] =
      some (⟨6, 3, [.sentByte 7, .recvByte 10, .sentByte 0, .recvByte 11, .sentByte 0, .recvByte 12]⟩,
            .ok [10, 11, 12]) ∧
    sentOf [.sentByte 7, .recvByte 10, .sentByte 0, .recvByte 11, .sentByte 0, .recvByte 12] = [7, 0, 0] ∧
    [7, 0, 0].length = max 3 1 := by
  have h := @claim_C5 readyP readyP_ready 1 (by decide) st0 3 [7]
  exact ⟨h.1.trans (by decide), by decide, by decide⟩

/-- C6: bytes are never pipelined.  On a responsive peripheral each of the
four composite primitives produces a strictly alternating
send-then-receive trace; `write` performs exactly `N` send+receive cycles
and discards all `N` received bytes, and `read` sends the 0x00 filler for
each position and stores the received byte there. -/
theorem claim_C6 {p : Periph} (hp : Ready p) {fuel : Nat} (hf : 0 < fuel)
    (s : BusState) (bs ws : List Nat) (n m : Nat) :
    sendRecvAlt (wEvents p s.drIdx bs) = true ∧
    sendRecvAlt (wEvents p s.drIdx (List.replicate n 0)) = true ∧
    sendRecvAlt (wEvents p s.drIdx (ws ++ List.replicate (m - ws.length) 0)) = true ∧
    write p fuel s bs =
      some ({ s with srIdx := s.srIdx + 2 * bs.length, drIdx := s.drIdx + bs.length, log := s.log ++ wEvents p s.drIdx bs },
            .ok ()) ∧
    read p fuel s n =
      some ({ s with srIdx := s.srIdx + 2 * n, drIdx := s.drIdx + n, log := s.log ++ wEvents p s.drIdx (List.replicate n 0) },
            .ok (recvList p s.drIdx n)) ∧
    transfer p fuel s m ws =
      some ({ s with srIdx := s.srIdx + 2 * max m ws.length, drIdx := s.drIdx + max m ws.length, log := s.log ++ wEvents p s.drIdx (ws ++ List.replicate (m - ws.length) 0) },
            .ok (recvList p s.drIdx m)) ∧
    transfer_in_place p fuel s bs =
      some ({ s with srIdx := s.srIdx + 2 * bs.length, drIdx := s.drIdx + bs.length, log := s.log ++ wEvents p s.drIdx bs },
            .ok (recvList p s.drIdx bs.length)) :=
  ⟨sendRecvAlt_wEvents p _ _, sendRecvAlt_wEvents p _ _, sendRecvAlt_wEvents p _ _,
   write_ready hp hf bs s, read_ready hp hf n s, transfer_ready hp hf ws m s,
   transfer_in_place_ready hp hf bs s⟩

/-- Witness for C6 on two-byte buffers: alternating traces, write
discards both received bytes, read sends two fillers and stores both. -/
theorem claim_C6_witness :
    sendRecvAlt (wEvents readyP 0 [1, 2]) = true ∧
    write readyP 1 st0 [1, 2] =
      some (⟨4, 2, [.sentByte 1, .recvByte 10, .sentByte 2, .recvByte 11]⟩, .ok ()) ∧
    read readyP 1 st0 2 =
      some (⟨4, 2, [.sentByte 0, .recvByte 10, .sentByte 0, .recvByte 11]⟩, .ok [10, 11]) ∧
    transfer readyP 1 st0 1 [7, 8] =
      some (⟨4, 2, [.sentByte 7, .recvByte 10, .sentByte 8, .recvByte 11]⟩, .ok [10]) ∧
    transfer_in_place readyP 1 st0 [3, 4] =
      some (⟨4, 2, [.sentByte 3, .recvByte 10, .sentByte 4, .recvByte 11]⟩, .ok [10, 11]) := by
  have ha := @claim_C6 readyP readyP_ready 1 (by decide) st0 [1, 2] [7, 8] 2 1
  have hb := @claim_C6 readyP readyP_ready 1 (by decide) st0 [3, 4] [7, 8] 2 1
  exact ⟨ha.1, ha.2.2.2.1.trans (by decide), ha.2.2.2.2.1.trans (by decide),
    ha.2.2.2.2.2.1.trans (by decide), hb.2.2.2.2.2.2.trans (by decide)⟩

/-- C10: on the empty inputs nothing touches the data register and
success is returned: a transaction over the empty operation list still
asserts then deasserts chip-select, and the four bus primitives on
zero-length buffers succeed without any poll. -/
theorem claim_C10 (p : Periph) (cs : CsPin) (fuel : Nat) (s : BusState)
    (hlow : cs.set_low_ok = true) (hhigh : cs.set_high_ok = true) :
    transaction p cs fuel s [] = some ({ s with log := s.log ++ [Ev.csLow, Ev.csHigh] }, .ok ()) ∧
    read p fuel s 0 = some (s, .ok []) ∧
    write p fuel s [] = some (s, .ok ()) ∧
    transfer p fuel s 0 [] = some (s, .ok []) ∧
    transfer_in_place p fuel s [] = some (s, .ok []) := by
  refine ⟨?_, rfl, rfl, by simp [transfer], rfl⟩
  simp [transaction, runOps, hlow, hhigh]

/-- Witness for C10 at the initial state with a working chip-select. -/
theorem claim_C10_witness :
    transaction readyP ⟨true, true⟩ 1 st0 [] = some (⟨0, 0, [.csLow, .csHigh]⟩, .ok ()) ∧
    read readyP 1 st0 0 = some (st0, .ok []) ∧
    write readyP 1 st0 [] = some (st0, .ok ()) ∧
    transfer readyP 1 st0 0 [] = some (st0, .ok []) ∧
    transfer_in_place readyP 1 st0 [] = some (st0, .ok []) := by
  have h := claim_C10 readyP ⟨true, true⟩ 1 st0 rfl rfl
  exact ⟨h.1.trans (by decide), h.2.1, h.2.2.1, h.2.2.2.1, h.2.2.2.2⟩

/-- C1: if a dispatched bus primitive fails mid-transaction, the error is
propagated to the caller at once: the transaction returns that very error
and state, no operation after the failing one runs, and chip-select is
left asserted (the log got its `csLow` edge, and no `csHigh` edge is ever
added). -/
theorem claim_C1 (p : Periph) (cs : CsPin) (fuel : Nat) (s s1 s2 : BusState)
    (pre post : List Operation) (op : Operation) (e : Error)
    (hlow : cs.set_low_ok = true)
    (hpre : runOps p fuel { s with log := s.log ++ [Ev.csLow] } pre = some (s1, .ok ()))
    (hop : dispatchOp p fuel s1 op = some (s2, .error e)) :
    transaction p cs fuel s (pre ++ op :: post) = some (s2, .error e) ∧
    Ev.csLow ∈ s2.log ∧
    (Ev.csHigh ∉ s.log → Ev.csHigh ∉ s2.log) := by
  obtain ⟨t1, e1, b1⟩ := runOps_ext p fuel pre _ s1 _ hpre
  obtain ⟨t2, e2, b2⟩ := dispatchOp_ext p fuel op s1 s2 _ hop
  have hlog : s2.log = ((s.log ++ [Ev.csLow]) ++ t1) ++ t2 := by rw [e2, e1]
  refine ⟨?_, ?_, ?_⟩
  · unfold transaction
    rw [if_pos hlow, runOps_append, hpre]
    simp only [runOps, hop]
  · rw [hlog]; simp
  · intro hns hmem
    rw [hlog] at hmem
    rcases List.mem_append.1 hmem with hmem | hmem
    · rcases List.mem_append.1 hmem with hmem | hmem
      · rcases List.mem_append.1 hmem with hmem | hmem
        · exact hns hmem
        · simp at hmem
      · simpa [busEv] using b1 _ hmem
    · simpa [busEv] using b2 _ hmem

/-- Witness for C1: a peripheral stuck on overrun fails the first `Write`
of a two-write transaction; the transaction returns `Overrun` with the
second write never dispatched and chip-select still asserted. -/
theorem claim_C1_witness :
    transaction faultyP ⟨true, true⟩ 1 st0 [.Write [5], .Write [7]] =
      some (⟨1, 0, [Ev.csLow]⟩, .error .Overrun) ∧
    Ev.csLow ∈ [Ev.csLow] ∧
    Ev.csHigh ∉ ([Ev.csLow] : List Ev) := by
  have h := claim_C1 faultyP ⟨true, true⟩ 1 st0 ⟨0, 0, [Ev.csLow]⟩ ⟨1, 0, [Ev.csLow]⟩
    [] [.Write [7]] (.Write [5]) .Overrun rfl (by decide) (by decide)
  exact ⟨h.1, h.2.1, h.2.2 (by decide)⟩

/-- C2: on a fully successful operation list the transaction asserts
chip-select first, dispatches every operation in order over the bus
(delays go to the delay provider), keeps chip-select asserted across the
whole list (no `csLow`/`csHigh` edge among the operations' events), then
deasserts it and returns success; a failing assert or deassert call is
returned as `ChipSelectFault`. -/
theorem claim_C2 (p : Periph) (cs : CsPin) (fuel : Nat) (s : BusState) (ops : List Operation) :
    (cs.set_low_ok = false → transaction p cs fuel s ops = some (s, .error .ChipSelectFault)) ∧
    (∀ ns, dispatchOp p fuel s (.DelayNs ns) = some ({ s with log := s.log ++ [.delay ns] }, .ok ())) ∧
    (∀ s1, cs.set_low_ok = true →
      runOps p fuel { s with log := s.log ++ [Ev.csLow] } ops = some (s1, .ok ()) →
      (cs.set_high_ok = false → transaction p cs fuel s ops = some (s1, .error .ChipSelectFault)) ∧
      (cs.set_high_ok = true →
        transaction p cs fuel s ops = some ({ s1 with log := s1.log ++ [Ev.csHigh] }, .ok ()) ∧
        ∃ t, s1.log = s.log ++ Ev.csLow :: t ∧ ∀ ev ∈ t, busEv ev = true)) := by
  refine ⟨fun h => by simp [transaction, h], fun ns => rfl, fun s1 hlow hops => ⟨?_, ?_⟩⟩
  · intro hh
    simp [transaction, hlow, hops, hh]
  · intro hh
    refine ⟨by simp [transaction, hlow, hops, hh], ?_⟩
    obtain ⟨t, e1, b1⟩ := runOps_ext p fuel ops _ s1 _ hops
    exact ⟨t, by rw [e1]; simp, b1⟩

/-- Witness for C2: a one-write-then-delay transaction on the always-ready
peripheral runs both operations between the chip-select edges, and a
chip-select pin whose assert fails yields `ChipSelectFault`. -/
theorem claim_C2_witness :
    transaction readyP ⟨true, true⟩ 1 st0 [.Write [2], .DelayNs 100] =
      some (⟨2, 1, [.csLow, .sentByte 2, .recvByte 10, .delay 100, .csHigh]⟩, .ok ()) ∧
    transaction readyP ⟨false, true⟩ 1 st0 [.Write [2]] = some (st0, .error .ChipSelectFault) ∧
    dispatchOp readyP 1 st0 (.DelayNs 100) = some (⟨0, 0, [.delay 100]⟩, .ok ()) := by
  have h := claim_C2 readyP ⟨true, true⟩ 1 st0 [.Write [2], .DelayNs 100]
  have hs := (h.2.2 ⟨2, 1, [Ev.csLow, Ev.sentByte 2, Ev.recvByte 10, Ev.delay 100]⟩ rfl
    (by decide)).2 rfl
  have hbad := (claim_C2 readyP ⟨false, true⟩ 1 st0 [.Write [2]]).1 rfl
  exact ⟨hs.1.trans (by decide), hbad, (h.2.1 100).trans (by decide)⟩

end Spi
